import Mathlib

/-! hyperclair: layer / history reconciliation (`docker/local.go`).

A shallow embedding of `Prepare`, `FromHistory`, `save`, `historyFromManifest`
and `historyFromCommand`, together with the few functions of the Go standard
library they call (`strings.TrimSuffix`, `strings.Split`, `os.Stat`,
`os.IsExist`, `os.RemoveAll`, `os.MkdirAll`).

Conventions
* a Go `string` is the list of its characters;
* a Go `error` is an `Option`: `none` is `nil`;
* external processes (`docker save | tar`, `docker history`) and the JSON
  decoder are fields of an environment record, the file system is an explicit
  state that is passed along;
* a run-time panic (index out of range) is an explicit exit of `Prepare`.
-/

namespace Hyperclair

/-! ## Go values -/

/-- Go `string`, as the list of its characters. -/
abbrev GoString := List Char

/-- The Go string written as the literal `s`. -/
abbrev str (s : String) : GoString := s.toList

/-- Classes of errors that `os.IsExist` / `os.IsNotExist` tell apart. -/
inductive ErrClass where
  | exist
  | notExist
  | other
  deriving DecidableEq, Repr

/-- A non-nil Go `error`: its class and the text of `Error()`. -/
structure GoErr where
  cls : ErrClass
  text : GoString
  deriving DecidableEq, Repr

/-- Go `error`: `none` is `nil`. -/
abbrev GoError := Option GoErr

namespace errors

/-- Go `errors.New(text)`. -/
def New (text : GoString) : GoErr := ⟨ErrClass.other, text⟩

end errors

namespace fmt

/-- The `%s` verb applied to an `error` operand: the text of `Error()`, and
`%!s(<nil>)` for the nil interface. -/
def verbS : GoError → GoString
  | some e => e.text
  | none => (str "%!s(<nil>)")

/-- Go `fmt.Errorf(lead + "%s", err)`: `lead` is the format up to its final `%s`. -/
def Errorf (lead : GoString) (err : GoError) : GoErr :=
  errors.New (lead ++ verbS err)

end fmt

/-! ## `strings` -/

namespace strings

/-- Go `strings.HasSuffix`:
`len(s) >= len(suffix) && s[len(s)-len(suffix):] == suffix`. -/
def HasSuffix (s suffix : GoString) : Bool :=
  decide (s.length ≥ suffix.length) && (s.drop (s.length - suffix.length) == suffix)

/-- Go `strings.TrimSuffix`:
`if HasSuffix(s, suffix) { return s[:len(s)-len(suffix)] }; return s`. -/
def TrimSuffix (s suffix : GoString) : GoString :=
  if HasSuffix s suffix then s.take (s.length - suffix.length) else s

/-- Go `strings.Index`: position of the first occurrence of `sep` in `s`
(`none` is the `-1` of Go). -/
def Index : GoString → GoString → Option Nat
  | [], sep => if sep = [] then some 0 else none
  | c :: t, sep =>
    if sep.isPrefixOf (c :: t) then some 0 else (Index t sep).map (· + 1)

/-- The loop of Go `strings.Count` for a non-empty `substr`:
`for { i := Index(s, substr); if i == -1 { return n }; n++; s = s[i+len(substr):] }`.
The first argument bounds the number of iterations. -/
def countLoop (substr : GoString) : Nat → GoString → Nat → Nat
  | 0, _, n => n
  | fuel + 1, s, n =>
    match Index s substr with
    | none => n
    | some i => countLoop substr fuel (s.drop (i + substr.length)) (n + 1)

/-- Go `strings.Count`. Each iteration of the loop removes at least one
character, so `len(s)` iterations are enough. -/
def Count (s substr : GoString) : Nat :=
  if substr = [] then s.length + 1 else countLoop substr s.length s 0

/-- The loop of Go `genSplit` (with `sepSave = 0`): `n` is the number of
iterations still allowed (`n - 1 - i` in the source).
`for i < n { m := Index(s, sep); if m < 0 { break }; a[i] = s[:m]; s = s[m+len(sep):]; i++ }; a[i] = s`. -/
def splitLoop (sep : GoString) : Nat → GoString → List GoString
  | 0, s => [s]
  | n + 1, s =>
    match Index s sep with
    | none => [s]
    | some m => s.take m :: splitLoop sep n (s.drop (m + sep.length))

/-- Go `strings.Split(s, sep)`, i.e. `genSplit(s, sep, 0, -1)`: an empty `sep`
explodes `s` into its characters, otherwise `n = Count(s, sep) + 1` pieces. -/
def Split (s sep : GoString) : List GoString :=
  if sep = [] then s.map (fun c => [c]) else splitLoop sep (Count s sep) s

end strings

/-! ## The reversal loop of `historyFromCommand` -/

/-- The Go statement `layers[i], layers[opp] = layers[opp], layers[i]`. Both
indices are in range wherever the loop uses it; out of range it changes
nothing. -/
def swap (layers : List GoString) (i opp : Nat) : List GoString :=
  match layers[i]?, layers[opp]? with
  | some a, some b => (layers.set i b).set opp a
  | _, _ => layers

/-- The loop `for i := len(layers)/2 - 1; i >= 0; i-- { opp := len(layers) - 1 - i; swap }`.
The counter is `i + 1`, so that `0` stands for `i = -1`, where the loop ends. -/
def reverseLoop : Nat → List GoString → List GoString
  | 0, layers => layers
  | i + 1, layers =>
    let opp := layers.length - 1 - i
    reverseLoop i (swap layers i opp)

/-- The in-place reversal step of `historyFromCommand` (lines 231-234):
the loop started at `i = len(layers)/2 - 1`. -/
def reverseInPlace (layers : List GoString) : List GoString :=
  reverseLoop (layers.length / 2) layers

/-! ## Data model -/

/-- Modelled from the spec: the `Layer` record of the repository (its
declaration is in a file that is not part of the sources at hand); a `BlobSum`
and a `History` string, the zero value of both being the empty string. -/
structure Layer where
  BlobSum : GoString
  History : GoString
  deriving DecidableEq, Repr

/-- Modelled from the spec: the `Image` record of the repository (its
declaration is in a file that is not part of the sources at hand), with the
fields `Name`, `Tag` and `FsLayers` that `local.go` uses. -/
structure Image where
  Name : GoString
  Tag : GoString
  FsLayers : List Layer
  deriving DecidableEq, Repr

/-- The local type `manifestItem` of `historyFromManifest`. -/
structure manifestItem where
  Config : GoString
  RepoTags : List GoString
  Layers : List GoString
  deriving DecidableEq, Repr

/-! ## File system -/

/-- What a path of the file system holds. -/
inductive Node where
  | dir
  | file (content : GoString)
  deriving DecidableEq, Repr

/-- The file system: the paths that exist, each with what it holds. The first
entry of a path is the one in force. -/
abbrev FS := List (GoString × Node)

/-- The node at path `p`, if `p` exists. -/
def FS.lookup (fs : FS) (p : GoString) : Option Node :=
  (fs.find? (fun e => e.1 == p)).map (fun e => e.2)

/-- Whether `q` is `p` itself or lies below the directory `p`. -/
def FS.under (p q : GoString) : Bool :=
  q == p || (p ++ ['/']).isPrefixOf q

/-- The proper ancestors of a path: what stands before each of its `/`
(the empty path, before a leading `/`, apart). -/
def FS.ancestors (p : GoString) : List GoString :=
  ((List.range p.length).filter (fun i => 0 < i && p[i]? == some '/')).map (fun i => p.take i)

namespace os

/-- Go `os.Stat`, reduced to its error: `nil` when the path exists, otherwise
the `ErrNotExist` path error. -/
def Stat (fs : FS) (name : GoString) : GoError :=
  match fs.lookup name with
  | some _ => none
  | none => some ⟨ErrClass.notExist, (str "stat ") ++ name ++ (str ": no such file or directory")⟩

/-- Go `os.IsExist`: whether the error is known to report that a file or
directory already exists. It is false of the nil error. -/
def IsExist : GoError → Bool
  | some e => e.cls == ErrClass.exist
  | none => false

/-- Go `os.RemoveAll`: removes the path and everything below it; a path that
does not exist is no error. Failures for want of permission are left out. -/
def RemoveAll (fs : FS) (path : GoString) : FS × GoError :=
  (fs.filter (fun e => !FS.under path e.1), none)

/-- Go `os.MkdirAll`: nothing to do when the path is a directory already, an
error when the path or one of its ancestors is a file, otherwise the missing
ancestors and the path itself are created. Failures for want of permission are
left out. -/
def MkdirAll (fs : FS) (path : GoString) : FS × GoError :=
  let notDir : GoErr := ⟨ErrClass.other, (str "mkdir ") ++ path ++ (str ": not a directory")⟩
  match fs.lookup path with
  | some Node.dir => (fs, none)
  | some (Node.file _) => (fs, some notDir)
  | none =>
    if (FS.ancestors path).any (fun q => match fs.lookup q with
        | some (Node.file _) => true
        | _ => false) then (fs, some notDir)
    else
      (fs ++ (((FS.ancestors path).filter (fun q => (fs.lookup q).isNone)) ++ [path]).map
        (fun q => (q, Node.dir)), none)

/-- Go `os.Open`, reduced to what is read from the handle: the node at the
path, or the `ErrNotExist` path error. -/
def Open (fs : FS) (name : GoString) : Except GoErr Node :=
  match fs.lookup name with
  | some n => Except.ok n
  | none => Except.error ⟨ErrClass.notExist, (str "open ") ++ name ++ (str ": no such file or directory")⟩

end os

/-! ## The outside world -/

/-- How far the pipeline `docker save imageName | tar xf - -C path` of `save`
got, with the data that `save` reads at that point. Once `tar` has been
started, `written` is what it has put on the file system. -/
inductive ExportRun where
  | stdinPipeErr (err : GoErr)
  | extractStartErr (stderr : GoString)
  | saveRunErr (stderr : GoString) (written : FS)
  | pipeCloseErr (err : GoErr) (written : FS)
  | extractWaitErr (stderr : GoString) (written : FS)
  | done (written : FS)
  deriving DecidableEq, Repr

/-- How far `docker history -q --no-trunc imageName` got: the pipe could not
be made, the command could not be started, or the lines the scanner reads from
its standard output, in the order they are printed (newest layer first). -/
inductive HistoryRun where
  | stdoutPipeErr (err : GoErr)
  | startErr (stderr : GoString)
  | lines (out : List GoString)
  deriving DecidableEq, Repr

/-- Everything `local.go` takes from outside: the value of `TmpLocal()` (a
function of the repository that is not part of the sources at hand, taken as a
parameter), the two external commands and the JSON decoder.
`historyExit` is the exit status with which the process `docker history` ends
once it has been started (`0` is success); `historyFromCommand` starts the
command and scans its output but never calls `cmd.Wait()`, so that no code
reads it. -/
structure Env where
  TmpLocal : GoString
  runExport : GoString → GoString → ExportRun
  jsonDecode : GoString → Except GoErr (List manifestItem)
  dockerHistory : GoString → HistoryRun
  historyExit : GoString → Nat

/-! ## `local.go` -/

/-- The path that `save` computes (line 138):
`TmpLocal() + "/" + strings.Split(imageName, ":")[0] + "/blobs"`.
`strings.Split` with a non-empty separator never returns an empty slice
(`Split_ne_nil`), so that index `0` is always in range. -/
def savePath (env : Env) (imageName : GoString) : GoString :=
  env.TmpLocal ++ (str "/") ++ (strings.Split imageName (str ":")).headD [] ++ (str "/blobs")

/-- Lines 138-150 of `save`: the path is computed, removed when
`os.IsExist(err)` holds of the error of `os.Stat`, and made with `os.MkdirAll`.
The result is the file system when the export pipeline is about to be built,
the path, and the error `save` returns at this point, if any. -/
def saveDir (env : Env) (fs : FS) (imageName : GoString) : FS × GoString × GoError :=
  let path := savePath env imageName
  let statErr := os.Stat fs path
  let removed : FS × GoError :=
    if os.IsExist statErr then os.RemoveAll fs path else (fs, none)
  match removed with
  | (fs1, some err) => (fs1, [], some err)
  | (fs1, none) =>
    match os.MkdirAll fs1 path with
    | (fs2, some err) => (fs2, [], some err)
    | (fs2, none) => (fs2, path, none)

/-- The function `save`: `saveDir`, then the pipeline `docker save | tar xf`
and the errors it can end with. -/
def save (env : Env) (fs : FS) (imageName : GoString) : FS × GoString × GoError :=
  match saveDir env fs imageName with
  | (fs2, _, some err) => (fs2, [], some err)
  | (fs2, path, none) =>
    match env.runExport imageName path with
    | ExportRun.stdinPipeErr err => (fs2, [], some err)
    | ExportRun.extractStartErr stderr => (fs2, [], some (errors.New stderr))
    | ExportRun.saveRunErr stderr written => (written ++ fs2, [], some (errors.New stderr))
    | ExportRun.pipeCloseErr err written => (written ++ fs2, [], some err)
    | ExportRun.extractWaitErr stderr written => (written ++ fs2, [], some (errors.New stderr))
    | ExportRun.done written => (written ++ fs2, path, none)

/-- The function `historyFromManifest`. Where the manifest does not have
exactly one entry the source returns `nil, err` with the `err` of the decoder,
which is `nil` there. -/
def historyFromManifest (env : Env) (fs : FS) (path : GoString) : List GoString × GoError :=
  match os.Open fs (path ++ (str "/manifest.json")) with
  | Except.error err => ([], some err)
  | Except.ok Node.dir =>
    ([], some ⟨ErrClass.other, (str "read ") ++ path ++ (str "/manifest.json: is a directory")⟩)
  | Except.ok (Node.file content) =>
    match env.jsonDecode content with
    | Except.error err => ([], some err)
    | Except.ok manifest =>
      let err : GoError := none
      if manifest.length != 1 then ([], err)
      else
        match manifest[0]? with
        | none => ([], err)
        | some item =>
          (item.Layers.foldl
            (fun layers layer => layers ++ [strings.TrimSuffix layer (str "/layer.tar")]) [], none)

/-- The function `historyFromCommand`: the lines of the command are appended
one by one to `layers`, which is then reversed in place. -/
def historyFromCommand (env : Env) (imageName : GoString) : List GoString × GoError :=
  match env.dockerHistory imageName with
  | HistoryRun.stdoutPipeErr err => ([], some err)
  | HistoryRun.startErr stderr => ([], some (errors.New stderr))
  | HistoryRun.lines out =>
    (reverseInPlace (out.foldl (fun layers text => layers ++ [text]) []), none)

/-- How a call ends: it returns an `error` (maybe `nil`), or the run-time
panics. -/
inductive Exit where
  | returned (err : GoError)
  | panicked (msg : GoString)
  deriving DecidableEq, Repr

/-- The state after a call of `Prepare` or `FromHistory`: the file system, the
image behind the pointer `im`, and how the call ended. -/
structure Result where
  fs : FS
  im : Image
  exit : Exit
  deriving DecidableEq, Repr

/-- The loop of `Prepare` (lines 39-41), from index `i` on:
`im.FsLayers = append(im.FsLayers, Layer{BlobSum: l, History: historyLayerIDs[i]})`.
Indexing `historyLayerIDs` out of range panics; the records appended before
stay. The result is the layers and whether the loop panicked. -/
def mergeLoop (historyLayerIDs : List GoString) :
    Nat → List GoString → List Layer → List Layer × Bool
  | _, [], FsLayers => (FsLayers, false)
  | i, l :: rest, FsLayers =>
    match historyLayerIDs[i]? with
    | none => (FsLayers, true)
    | some h => mergeLoop historyLayerIDs (i + 1) rest (FsLayers ++ [⟨l, h⟩])

/-- The function `Prepare`. The error of `historyFromManifest` is overwritten
by the one of `historyFromCommand` before it is looked at. -/
def Prepare (env : Env) (fs : FS) (im : Image) : Result :=
  let imageName := im.Name ++ (str ":") ++ im.Tag
  match save env fs imageName with
  | (fs1, _, some err) =>
    ⟨fs1, im, Exit.returned (some (fmt.Errorf (str "could not save image: ") (some err)))⟩
  | (fs1, path, none) =>
    let manifestLayerIDs := (historyFromManifest env fs1 path).1
    let (historyLayerIDs, err) := historyFromCommand env imageName
    if err != none || (manifestLayerIDs.length == 0 && historyLayerIDs.length == 0) then
      ⟨fs1, im, Exit.returned (some (fmt.Errorf (str "Could not get image's history: ") err))⟩
    else
      match mergeLoop historyLayerIDs 0 manifestLayerIDs im.FsLayers with
      | (FsLayers, true) =>
        ⟨fs1, { im with FsLayers := FsLayers }, Exit.panicked (str "runtime error: index out of range")⟩
      | (FsLayers, false) =>
        ⟨fs1, { im with FsLayers := FsLayers }, Exit.returned none⟩

/-- The function `FromHistory`. -/
def FromHistory (env : Env) (fs : FS) (im : Image) : Result :=
  let imageName := im.Name ++ (str ":") ++ im.Tag
  let (layerIDs, err) := historyFromCommand env imageName
  if err != none || layerIDs.length == 0 then
    ⟨fs, im, Exit.returned (some (fmt.Errorf (str "Could not get image's history: ") err))⟩
  else
    ⟨fs, { im with FsLayers := layerIDs.foldl (fun FsLayers l => FsLayers ++ [⟨l, []⟩]) im.FsLayers },
      Exit.returned none⟩

/-! ## Sample values -/

/-- A sample world: `TmpLocal()` is `/tmp/hyperclair`, the export succeeds and
leaves a `manifest.json` that decodes to `manifest`, and `docker history`
behaves as `history` and exits with status `0`. -/
def sampleEnv (manifest : List manifestItem) (history : HistoryRun) : Env where
  TmpLocal := str "/tmp/hyperclair"
  runExport := fun _ path =>
    ExportRun.done [(path ++ str "/manifest.json", Node.file (str "[...]"))]
  jsonDecode := fun _ => Except.ok manifest
  dockerHistory := fun _ => history
  historyExit := fun _ => 0

/-- A sample world in which the history query fails: `docker history` prints
the line `x` and then exits with status `1`. -/
def sampleFailedHistory : Env :=
  { sampleEnv [] (HistoryRun.lines [str "x"]) with historyExit := fun _ => 1 }

/-- A sample image `busybox:latest` that holds one layer record already. -/
def sampleImage : Image :=
  ⟨str "busybox", str "latest", [⟨str "base", []⟩]⟩

/-- A sample manifest entry with three layers. -/
def sampleItem : manifestItem :=
  ⟨str "cfg.json", [str "busybox:latest"],
    [str "a/layer.tar", str "b/layer.tar", str "c/layer.tar"]⟩

/-- The export directory of `busybox:latest` in the sample world. -/
def samplePath : GoString := str "/tmp/hyperclair/busybox/blobs"

/-- The sample file system once `busybox:latest` has been exported into the
empty file system. -/
def sampleExported : FS :=
  [(str "/tmp/hyperclair/busybox/blobs/manifest.json", Node.file (str "[...]")),
   (str "/tmp", Node.dir), (str "/tmp/hyperclair", Node.dir),
   (str "/tmp/hyperclair/busybox", Node.dir), (samplePath, Node.dir)]

/-- A sample file system in which the export directory of `busybox:latest`
exists and holds a file of an earlier export. -/
def sampleStale : FS :=
  [(str "/tmp", Node.dir), (str "/tmp/hyperclair", Node.dir),
   (str "/tmp/hyperclair/busybox", Node.dir), (samplePath, Node.dir),
   (samplePath ++ str "/old/layer.tar", Node.file (str "stale"))]


/-! ## Sample runs -/

theorem reverseInPlace_sample :
    reverseInPlace [str "c", str "b", str "a"] = [str "a", str "b", str "c"] ∧
    reverseInPlace [str "d", str "c", str "b", str "a"] = [str "a", str "b", str "c", str "d"] ∧
    reverseInPlace [] = [] := by
  decide

theorem save_sample :
    save (sampleEnv [sampleItem] (HistoryRun.lines [])) [] (str "busybox:latest")
      = (sampleExported, samplePath, none) := by
  decide

theorem Prepare_sample :
    Prepare (sampleEnv [sampleItem] (HistoryRun.lines [str "h3", str "h2", str "h1"])) []
        sampleImage
      = ⟨sampleExported,
          ⟨str "busybox", str "latest",
            [⟨str "base", []⟩, ⟨str "a", str "h1"⟩, ⟨str "b", str "h2"⟩, ⟨str "c", str "h3"⟩]⟩,
          Exit.returned none⟩ := by
  decide

/-! ## The reversal loop reverses -/

theorem length_swap (l : List GoString) (i j : Nat) : (swap l i j).length = l.length := by
  unfold swap
  split <;> simp

theorem getElem?_swap (l : List GoString) (i j x : Nat) (hi : i < l.length) (hj : j < l.length) :
    (swap l i j)[x]? = if x = j then l[i]? else if x = i then l[j]? else l[x]? := by
  unfold swap
  rw [List.getElem?_eq_getElem hi, List.getElem?_eq_getElem hj]
  simp only [List.getElem?_set, List.length_set]
  by_cases h1 : j = x
  · subst h1
    simp [hj]
  · by_cases h2 : i = x
    · subst h2
      simp [h1, hi, Ne.symm h1]
    · simp [h1, h2, Ne.symm h1, Ne.symm h2]

theorem length_reverseLoop (k : Nat) (l : List GoString) : (reverseLoop k l).length = l.length := by
  induction k generalizing l with
  | zero => rfl
  | succ k ih => simp [reverseLoop, ih, length_swap]

/-- After the iterations `i = k-1, ..., 0` the first `k` and the last `k`
positions hold the mirrored elements, the middle is as before. -/
theorem getElem?_reverseLoop (k : Nat) (l : List GoString) (hk : 2 * k ≤ l.length) (x : Nat) :
    (reverseLoop k l)[x]? =
      if x < k ∨ (l.length - k ≤ x ∧ x < l.length) then l[l.length - 1 - x]? else l[x]? := by
  induction k generalizing l with
  | zero =>
    simp only [reverseLoop]
    split
    · rename_i h
      rcases h with h | ⟨h1, h2⟩
      · omega
      · omega
    · rfl
  | succ k ih =>
    have hi : k < l.length := by omega
    have hj : l.length - 1 - k < l.length := by omega
    simp only [reverseLoop]
    rw [ih _ (by rw [length_swap]; omega), length_swap, getElem?_swap l _ _ _ hi hj,
      getElem?_swap l _ _ _ hi hj]
    by_cases hx : x < l.length
    · split_ifs <;> first | omega | rfl | (congr 1; omega)
    · have e1 : l[x]? = none := List.getElem?_eq_none (by omega)
      split_ifs <;> first | omega | rfl

theorem reverseInPlace_eq_reverse (l : List GoString) : reverseInPlace l = l.reverse := by
  apply List.ext_getElem?
  intro x
  unfold reverseInPlace
  rw [getElem?_reverseLoop _ _ (by omega)]
  by_cases hx : x < l.length
  · rw [List.getElem?_reverse hx]
    split_ifs with h
    · rfl
    · have : l.length - 1 - x = x := by omega
      rw [this]
  · have e1 : l[x]? = none := List.getElem?_eq_none (by omega)
    have e2 : l.reverse[x]? = none := List.getElem?_eq_none (by simp; omega)
    rw [e2]
    split_ifs with h
    · omega
    · exact e1

/-! ## The loops that append -/

theorem foldl_append_singleton {α β : Type} (f : α → β) (l : List α) (acc : List β) :
    l.foldl (fun r x => r ++ [f x]) acc = acc ++ l.map f := by
  induction l generalizing acc with
  | nil => simp
  | cons a t ih => simp [ih]

theorem historyFromCommand_lines (env : Env) (imageName : GoString) (out : List GoString)
    (h : env.dockerHistory imageName = HistoryRun.lines out) :
    historyFromCommand env imageName = (out.reverse, none) := by
  have e : out.foldl (fun r x => r ++ [x]) [] = out := by
    simpa using foldl_append_singleton (fun x : GoString => x) out []
  simp only [historyFromCommand, h]
  rw [e, reverseInPlace_eq_reverse]

/-- The loop of `Prepare` runs to its end when the history is long enough, and
then appends the records pairing the two sequences position by position. -/
theorem mergeLoop_in_range (hist : List GoString) (i : Nat) (m : List GoString) (acc : List Layer)
    (h : i + m.length ≤ hist.length) :
    mergeLoop hist i m acc = (acc ++ List.zipWith Layer.mk m (hist.drop i), false) := by
  induction m generalizing i acc with
  | nil => simp [mergeLoop]
  | cons l rest ih =>
    have hi : i < hist.length := by simp at h; omega
    simp only [mergeLoop, List.getElem?_eq_getElem hi]
    rw [ih (i + 1) _ (by simp at h ⊢; omega)]
    rw [List.drop_eq_getElem_cons hi]
    simp only [List.zipWith_cons_cons, List.append_assoc, List.singleton_append]

/-- The loop of `Prepare` panics exactly when the manifest sequence reaches
past the end of the history. -/
theorem mergeLoop_panics_iff (hist : List GoString) (i : Nat) (m : List GoString) (acc : List Layer)
    (hle : i ≤ hist.length) :
    (mergeLoop hist i m acc).2 = true ↔ hist.length < i + m.length := by
  induction m generalizing i acc with
  | nil => simp [mergeLoop]; omega
  | cons l rest ih =>
    by_cases hi : i < hist.length
    · simp only [mergeLoop, List.getElem?_eq_getElem hi]
      rw [ih _ _ (by omega)]
      simp
      omega
    · have e : hist[i]? = none := List.getElem?_eq_none (by omega)
      simp only [mergeLoop, e]
      simp
      omega

/-! ## `strings.TrimSuffix` -/

theorem TrimSuffix_append (q suffix : GoString) : strings.TrimSuffix (q ++ suffix) suffix = q := by
  simp [strings.TrimSuffix, strings.HasSuffix]

theorem TrimSuffix_of_not_suffix (s suffix : GoString) (h : ¬ suffix <:+ s) :
    strings.TrimSuffix s suffix = s := by
  unfold strings.TrimSuffix strings.HasSuffix
  split
  · rename_i hs
    simp only [ge_iff_le, Bool.and_eq_true, decide_eq_true_eq, beq_iff_eq] at hs
    exact absurd (hs.2 ▸ List.drop_suffix _ s) h
  · rfl

theorem historyFromManifest_single (env : Env) (fs : FS) (path content : GoString)
    (item : manifestItem)
    (hopen : fs.lookup (path ++ str "/manifest.json") = some (Node.file content))
    (hdec : env.jsonDecode content = Except.ok [item]) :
    historyFromManifest env fs path
      = (item.Layers.map (fun layer => strings.TrimSuffix layer (str "/layer.tar")), none) := by
  have hf := foldl_append_singleton
    (fun layer : GoString => strings.TrimSuffix layer (str "/layer.tar")) item.Layers []
  simp only [historyFromManifest, os.Open, hopen, hdec]
  simpa using hf

theorem historyFromManifest_not_one (env : Env) (fs : FS) (path content : GoString)
    (manifest : List manifestItem)
    (hopen : fs.lookup (path ++ str "/manifest.json") = some (Node.file content))
    (hdec : env.jsonDecode content = Except.ok manifest) (hlen : manifest.length ≠ 1) :
    historyFromManifest env fs path = ([], none) := by
  simp only [historyFromManifest, os.Open, hopen, hdec]
  simp [hlen]

/-- The error of `os.Stat` never satisfies `os.IsExist`: it is `nil` for a path
that exists and of the class `ErrNotExist` otherwise. -/
theorem IsExist_Stat (fs : FS) (name : GoString) : os.IsExist (os.Stat fs name) = false := by
  unfold os.Stat
  split <;> simp [os.IsExist]

/-- In `saveDir` the call of `os.RemoveAll` is never reached. -/
theorem saveDir_eq (env : Env) (fs : FS) (imageName : GoString) :
    saveDir env fs imageName =
      match os.MkdirAll fs (savePath env imageName) with
      | (fs2, some err) => (fs2, [], some err)
      | (fs2, none) => (fs2, savePath env imageName, none) := by
  simp only [saveDir, IsExist_Stat]
  rfl

/-! ## `strings.Split` on a one-character separator -/

theorem Index_single (c : Char) (s : GoString) (h : c ∈ s) :
    strings.Index s [c] = some (s.takeWhile (fun x => x != c)).length := by
  induction s with
  | nil => simp at h
  | cons a t ih =>
    by_cases hca : c = a
    · subst hca
      simp [strings.Index, List.isPrefixOf]
    · have ht : c ∈ t := by
        rcases List.mem_cons.mp h with h1 | h1
        · exact absurd h1 hca
        · exact h1
      have hac : a ≠ c := fun e => hca e.symm
      simp [strings.Index, List.isPrefixOf, hca, ih ht, List.takeWhile_cons, hac]

theorem le_countLoop (sep : GoString) (fuel : Nat) (s : GoString) (n : Nat) :
    n ≤ strings.countLoop sep fuel s n := by
  induction fuel generalizing s n with
  | zero => simp [strings.countLoop]
  | succ k ih =>
    simp only [strings.countLoop]
    split
    · exact Nat.le_refl n
    · exact Nat.le_trans (Nat.le_succ n) (ih _ _)

theorem take_length_takeWhile (p : Char → Bool) (s : GoString) :
    s.take (s.takeWhile p).length = s.takeWhile p := by
  induction s with
  | nil => rfl
  | cons a t ih =>
    by_cases hp : p a = true
    · simp [List.takeWhile_cons, hp, ih]
    · simp [List.takeWhile_cons, hp]

theorem takeWhile_append_sep (c : Char) (a b : GoString) :
    (a ++ c :: b).takeWhile (fun x => x != c) = a.takeWhile (fun x => x != c) := by
  induction a with
  | nil => simp [List.takeWhile_cons]
  | cons x t ih =>
    by_cases hx : x = c
    · simp [List.takeWhile_cons, hx]
    · simp [List.takeWhile_cons, hx, ih]

theorem splitLoop_ne_nil (sep : GoString) (n : Nat) (s : GoString) :
    strings.splitLoop sep n s ≠ [] := by
  cases n with
  | zero => simp [strings.splitLoop]
  | succ k =>
    simp only [strings.splitLoop]
    split <;> simp

/-- With a non-empty separator `strings.Split` returns at least one piece. -/
theorem Split_ne_nil (s sep : GoString) (h : sep ≠ []) : strings.Split s sep ≠ [] := by
  simp only [strings.Split, if_neg h]
  exact splitLoop_ne_nil _ _ _

/-- The first piece of `strings.Split(s, c)` is what stands before the first `c`. -/
theorem Split_head_single (c : Char) (s : GoString) (h : c ∈ s) :
    (strings.Split s [c]).headD [] = s.takeWhile (fun x => x != c) := by
  have hidx := Index_single c s h
  have hcount : ∃ n, strings.Count s [c] = n + 1 := by
    cases s with
    | nil => simp at h
    | cons a t =>
      have h1 : 1 ≤ strings.Count (a :: t) [c] := by
        simp only [strings.Count, List.cons_ne_nil, if_false, List.length_cons,
          strings.countLoop, hidx]
        exact le_countLoop _ _ _ _
      exact ⟨strings.Count (a :: t) [c] - 1, by omega⟩
  obtain ⟨n, hn⟩ := hcount
  simp only [strings.Split, List.cons_ne_nil, if_false, hn, strings.splitLoop, hidx,
    List.headD_cons]
  exact take_length_takeWhile _ s

theorem savePath_eq (env : Env) (Name Tag : GoString) :
    savePath env (Name ++ str ":" ++ Tag)
      = env.TmpLocal ++ str "/" ++ Name.takeWhile (fun x => x != ':') ++ str "/blobs" := by
  have hmem : ':' ∈ Name ++ ':' :: Tag := by simp
  have hsplit := Split_head_single ':' (Name ++ ':' :: Tag) hmem
  rw [takeWhile_append_sep] at hsplit
  have e : Name ++ str ":" ++ Tag = Name ++ ':' :: Tag := by simp [str]
  have e2 : str ":" = [':'] := rfl
  unfold savePath
  rw [e, e2, hsplit]

/-- The exit status of `docker history` has no bearing on `historyFromCommand`. -/
theorem historyFromCommand_historyExit (env : Env) (status : GoString → Nat)
    (imageName : GoString) :
    historyFromCommand { env with historyExit := status } imageName
      = historyFromCommand env imageName := rfl

/-- The exit status of `docker history` has no bearing on `FromHistory`. -/
theorem FromHistory_historyExit (env : Env) (status : GoString → Nat) (fs : FS) (im : Image) :
    FromHistory { env with historyExit := status } fs im = FromHistory env fs im := rfl

/-! ## Claims -/

/-- C7: the in-place reversal step of `historyFromCommand` yields the exact
reverse of any sequence (empty, odd or even length), and applying it twice
gives the sequence back. -/
theorem reverseInPlace_involution (layers : List GoString) :
    reverseInPlace layers = layers.reverse ∧ reverseInPlace (reverseInPlace layers) = layers := by
  refine ⟨reverseInPlace_eq_reverse layers, ?_⟩
  rw [reverseInPlace_eq_reverse, reverseInPlace_eq_reverse, List.reverse_reverse]

/-- C1: full mode. When the export succeeded, the manifest reader gave the
sequence `m` and the history query printed the lines `h`, of the same non-zero
length, `Prepare` returns `nil` and `im.FsLayers` is its previous content
followed by `len(m)` records, record `i` being `m[i]` paired with
`reverse(h)[i]`. -/
theorem prepare_full_mode (env : Env) (fs fs1 : FS) (im : Image) (path : GoString)
    (m h : List GoString)
    (hsave : save env fs (im.Name ++ str ":" ++ im.Tag) = (fs1, path, none))
    (hman : (historyFromManifest env fs1 path).1 = m)
    (hhist : env.dockerHistory (im.Name ++ str ":" ++ im.Tag) = HistoryRun.lines h)
    (hlen : m.length = h.length) (hpos : m.length ≠ 0) :
    ∃ added : List Layer,
      Prepare env fs im = ⟨fs1, { im with FsLayers := im.FsLayers ++ added }, Exit.returned none⟩ ∧
      added.length = m.length ∧
      ∀ i : Nat, i < m.length →
        ∃ b t, m[i]? = some b ∧ h.reverse[i]? = some t ∧ added[i]? = some ⟨b, t⟩ := by
  refine ⟨List.zipWith Layer.mk m h.reverse, ?_, ?_, ?_⟩
  · have hc := historyFromCommand_lines env _ h hhist
    have hm : mergeLoop h.reverse 0 m im.FsLayers
        = (im.FsLayers ++ List.zipWith Layer.mk m h.reverse, false) := by
      simpa using mergeLoop_in_range h.reverse 0 m im.FsLayers (by simp; omega)
    have hne : m ≠ [] := fun hh => hpos (by simp [hh])
    simp only [Prepare, hsave, hman, hc, hm]
    simp [hne]
  · simp [hlen]
  · intro i hi
    have hi2 : i < h.reverse.length := by simp; omega
    refine ⟨m[i], h.reverse[i], List.getElem?_eq_getElem hi, List.getElem?_eq_getElem hi2, ?_⟩
    simp [List.getElem?_zipWith, List.getElem?_eq_getElem hi, List.getElem?_eq_getElem hi2]

/-- Witness of C1 on the manifest `[a,b,c]` and the history lines `[c,b,a]`. -/
theorem prepare_full_mode_witness :
    save (sampleEnv [sampleItem] (HistoryRun.lines [str "c", str "b", str "a"])) []
        (sampleImage.Name ++ str ":" ++ sampleImage.Tag) = (sampleExported, samplePath, none) ∧
    ∃ added : List Layer,
      Prepare (sampleEnv [sampleItem] (HistoryRun.lines [str "c", str "b", str "a"])) [] sampleImage
        = ⟨sampleExported, { sampleImage with FsLayers := sampleImage.FsLayers ++ added },
            Exit.returned none⟩ ∧
      added.length = [str "a", str "b", str "c"].length ∧
      ∀ i : Nat, i < [str "a", str "b", str "c"].length →
        ∃ b t, [str "a", str "b", str "c"][i]? = some b ∧
          [str "c", str "b", str "a"].reverse[i]? = some t ∧ added[i]? = some ⟨b, t⟩ :=
  ⟨by decide,
    prepare_full_mode (sampleEnv [sampleItem] (HistoryRun.lines [str "c", str "b", str "a"])) []
      sampleExported sampleImage samplePath [str "a", str "b", str "c"] [str "c", str "b", str "a"]
      (by decide) (by decide) (by decide) (by decide) (by decide)⟩

/-- C2: degraded mode. When the history query printed the non-empty lines `h`,
`FromHistory` returns `nil` and appends `len(h)` records whose `BlobSum`s are
`h` reversed and whose `History` is empty. -/
theorem fromHistory_degraded (env : Env) (fs : FS) (im : Image) (h : List GoString)
    (hhist : env.dockerHistory (im.Name ++ str ":" ++ im.Tag) = HistoryRun.lines h)
    (hne : h ≠ []) :
    ∃ added : List Layer,
      FromHistory env fs im
        = ⟨fs, { im with FsLayers := im.FsLayers ++ added }, Exit.returned none⟩ ∧
      added.length = h.length ∧
      added.map Layer.BlobSum = h.reverse ∧
      ∀ r ∈ added, r.History = [] := by
  refine ⟨h.reverse.map (fun l => ⟨l, []⟩), ?_, by simp, ?_, ?_⟩
  · have hc := historyFromCommand_lines env _ h hhist
    have hf := foldl_append_singleton (fun l : GoString => Layer.mk l []) h.reverse im.FsLayers
    simp only [FromHistory, hc, hf]
    simp [hne]
  · simp [Function.comp_def]
  · intro r hr
    simp only [List.mem_map] at hr
    obtain ⟨l, _, rfl⟩ := hr
    rfl

/-- Witness of C2 on the history lines `[z,y,x]`. -/
theorem fromHistory_degraded_witness :
    [str "z", str "y", str "x"] ≠ [] ∧
    ∃ added : List Layer,
      FromHistory (sampleEnv [] (HistoryRun.lines [str "z", str "y", str "x"])) [] sampleImage
        = ⟨[], { sampleImage with FsLayers := sampleImage.FsLayers ++ added }, Exit.returned none⟩ ∧
      added.length = [str "z", str "y", str "x"].length ∧
      added.map Layer.BlobSum = [str "z", str "y", str "x"].reverse ∧
      ∀ r ∈ added, r.History = [] :=
  ⟨by decide,
    fromHistory_degraded (sampleEnv [] (HistoryRun.lines [str "z", str "y", str "x"])) []
      sampleImage [str "z", str "y", str "x"] (by decide) (by decide)⟩

/-- C4: when the export succeeded and both the manifest reader and the history
reader return empty sequences, `Prepare` returns the error
`Could not get image's history: ...` and leaves the image, so `im.FsLayers`, as
it was. -/
theorem prepare_both_empty (env : Env) (fs fs1 : FS) (im : Image) (path : GoString)
    (hsave : save env fs (im.Name ++ str ":" ++ im.Tag) = (fs1, path, none))
    (hman : (historyFromManifest env fs1 path).1 = [])
    (hhist : (historyFromCommand env (im.Name ++ str ":" ++ im.Tag)).1 = []) :
    (Prepare env fs im).exit
        = Exit.returned (some (fmt.Errorf (str "Could not get image's history: ")
            (historyFromCommand env (im.Name ++ str ":" ++ im.Tag)).2)) ∧
      (Prepare env fs im).im = im ∧
      (Prepare env fs im).im.FsLayers = im.FsLayers := by
  have key : Prepare env fs im = ⟨fs1, im, Exit.returned (some (fmt.Errorf
      (str "Could not get image's history: ")
      (historyFromCommand env (im.Name ++ str ":" ++ im.Tag)).2))⟩ := by
    simp only [Prepare, hsave, hman]
    rcases hc : historyFromCommand env (im.Name ++ str ":" ++ im.Tag) with ⟨ids, err⟩
    rw [hc] at hhist
    simp only at hhist
    subst hhist
    simp
  rw [key]
  exact ⟨rfl, rfl, rfl⟩

/-- Witness of C4: a manifest without entries and a history without lines. -/
theorem prepare_both_empty_witness :
    save (sampleEnv [] (HistoryRun.lines [])) [] (sampleImage.Name ++ str ":" ++ sampleImage.Tag)
        = (sampleExported, samplePath, none) ∧
    (Prepare (sampleEnv [] (HistoryRun.lines [])) [] sampleImage).exit
        = Exit.returned (some (fmt.Errorf (str "Could not get image's history: ")
            (historyFromCommand (sampleEnv [] (HistoryRun.lines []))
              (sampleImage.Name ++ str ":" ++ sampleImage.Tag)).2)) ∧
      (Prepare (sampleEnv [] (HistoryRun.lines [])) [] sampleImage).im = sampleImage ∧
      (Prepare (sampleEnv [] (HistoryRun.lines [])) [] sampleImage).im.FsLayers
        = sampleImage.FsLayers :=
  ⟨by decide,
    prepare_both_empty (sampleEnv [] (HistoryRun.lines [])) [] sampleExported sampleImage
      samplePath (by decide) (by decide) (by decide)⟩

/-- The cases in which `FromHistory` does return an error: it returns one and
leaves the image as it was when the pipe could not be made, when the command
could not be started, and when no line was printed; it returns `nil` for every
non-empty list of lines, whatever the exit status of the command. -/
theorem fromHistory_error_cases (env : Env) (fs : FS) (im : Image) :
    (((∃ e, env.dockerHistory (im.Name ++ str ":" ++ im.Tag) = HistoryRun.stdoutPipeErr e) ∨
      (∃ t, env.dockerHistory (im.Name ++ str ":" ++ im.Tag) = HistoryRun.startErr t) ∨
      env.dockerHistory (im.Name ++ str ":" ++ im.Tag) = HistoryRun.lines []) →
        ∃ e, FromHistory env fs im = ⟨fs, im, Exit.returned (some e)⟩) ∧
    (∀ h, env.dockerHistory (im.Name ++ str ":" ++ im.Tag) = HistoryRun.lines h → h ≠ [] →
        (FromHistory env fs im).exit = Exit.returned none) := by
  constructor
  · rintro (⟨e, he⟩ | ⟨t, ht⟩ | hl)
    · have hc : historyFromCommand env (im.Name ++ str ":" ++ im.Tag) = ([], some e) := by
        simp only [historyFromCommand, he]
      exact ⟨_, by simp only [FromHistory]; rw [hc]; simp; rfl⟩
    · have hc : historyFromCommand env (im.Name ++ str ":" ++ im.Tag)
          = ([], some (errors.New t)) := by
        simp only [historyFromCommand, ht]
      exact ⟨_, by simp only [FromHistory]; rw [hc]; simp; rfl⟩
    · have hc := historyFromCommand_lines env _ [] hl
      exact ⟨_, by simp only [FromHistory]; rw [hc]; simp; rfl⟩
  · intro h hl hne
    have hc := historyFromCommand_lines env _ h hl
    simp only [FromHistory]
    rw [hc]
    simp [hne]

/-- Sample of the cases above: a query that cannot be started, and a query
with one line. -/
theorem fromHistory_error_cases_witness :
    (∃ e, FromHistory (sampleEnv [] (HistoryRun.startErr (str "no such image"))) [] sampleImage
        = ⟨[], sampleImage, Exit.returned (some e)⟩) ∧
    (FromHistory (sampleEnv [] (HistoryRun.lines [str "x"])) [] sampleImage).exit
        = Exit.returned none :=
  ⟨(fromHistory_error_cases (sampleEnv [] (HistoryRun.startErr (str "no such image"))) []
      sampleImage).1 (Or.inr (Or.inl ⟨str "no such image", rfl⟩)),
   (fromHistory_error_cases (sampleEnv [] (HistoryRun.lines [str "x"])) [] sampleImage).2
      [str "x"] rfl (by decide)⟩

/-- C5, the code at a history query that fails after it has printed a line:
`docker history` prints `x` and exits with status `1`. Nothing waits for the
command, so `historyFromCommand` returns `[x], nil`, and `FromHistory` returns
`nil` and appends the record of `x`, where the claim has it return an error
and leave `im.FsLayers` as it was. -/
theorem fromHistory_failed_query_returns_nil :
    sampleFailedHistory.dockerHistory (sampleImage.Name ++ str ":" ++ sampleImage.Tag)
      = HistoryRun.lines [str "x"] ∧
    sampleFailedHistory.historyExit (sampleImage.Name ++ str ":" ++ sampleImage.Tag) = 1 ∧
    historyFromCommand sampleFailedHistory (sampleImage.Name ++ str ":" ++ sampleImage.Tag)
      = ([str "x"], none) ∧
    FromHistory sampleFailedHistory [] sampleImage
      = ⟨[], { sampleImage with FsLayers := sampleImage.FsLayers ++ [⟨str "x", []⟩] },
          Exit.returned none⟩ := by
  decide

/-- C6: for a manifest file that decodes to exactly one entry,
`historyFromManifest` returns without error a sequence as long as the `Layers`
of the entry and in the same order; the element for a path `q ++ "/layer.tar"`
is `q`, the element for a path that does not end with `/layer.tar` is the path
itself. -/
theorem historyFromManifest_one_entry (env : Env) (fs : FS) (path content : GoString)
    (item : manifestItem)
    (hopen : fs.lookup (path ++ str "/manifest.json") = some (Node.file content))
    (hdec : env.jsonDecode content = Except.ok [item]) :
    ∃ ids : List GoString,
      historyFromManifest env fs path = (ids, none) ∧
      ids.length = item.Layers.length ∧
      ∀ (i : Nat) (layer : GoString), item.Layers[i]? = some layer →
        (∀ q, layer = q ++ str "/layer.tar" → ids[i]? = some q) ∧
        (¬ str "/layer.tar" <:+ layer → ids[i]? = some layer) := by
  refine ⟨_, historyFromManifest_single env fs path content item hopen hdec, by simp, ?_⟩
  intro i layer hl
  constructor
  · intro q hq
    subst hq
    simp [List.getElem?_map, hl, TrimSuffix_append]
  · intro hn
    rw [List.getElem?_map, hl, Option.map_some', TrimSuffix_of_not_suffix _ _ hn]

/-- Witness of C6: the manifest of one entry with the single layer path
`sha256:abc/layer.tar` yields `sha256:abc`. -/
theorem historyFromManifest_one_entry_witness :
    historyFromManifest (sampleEnv [⟨[], [], [str "sha256:abc/layer.tar"]⟩] (HistoryRun.lines []))
        sampleExported samplePath = ([str "sha256:abc"], none) ∧
    ∃ ids : List GoString,
      historyFromManifest (sampleEnv [⟨[], [], [str "sha256:abc/layer.tar"]⟩] (HistoryRun.lines []))
        sampleExported samplePath = (ids, none) ∧
      ids.length = [str "sha256:abc/layer.tar"].length ∧
      ∀ (i : Nat) (layer : GoString), [str "sha256:abc/layer.tar"][i]? = some layer →
        (∀ q, layer = q ++ str "/layer.tar" → ids[i]? = some q) ∧
        (¬ str "/layer.tar" <:+ layer → ids[i]? = some layer) :=
  ⟨by decide,
    historyFromManifest_one_entry
      (sampleEnv [⟨[], [], [str "sha256:abc/layer.tar"]⟩] (HistoryRun.lines []))
      sampleExported samplePath (str "[...]") ⟨[], [], [str "sha256:abc/layer.tar"]⟩
      (by decide) rfl⟩

/-- C3, the code at a manifest of two entries and at a manifest of no entry,
with a history of one line: `historyFromManifest` returns `nil, nil`, and
`Prepare` returns `nil` (no error), the image being as it was. -/
theorem prepare_manifest_not_one_entry :
    historyFromManifest (sampleEnv [sampleItem, sampleItem] (HistoryRun.lines [str "x"]))
        sampleExported samplePath = ([], none) ∧
    Prepare (sampleEnv [sampleItem, sampleItem] (HistoryRun.lines [str "x"])) [] sampleImage
        = ⟨sampleExported, sampleImage, Exit.returned none⟩ ∧
    historyFromManifest (sampleEnv [] (HistoryRun.lines [str "x"]))
        sampleExported samplePath = ([], none) ∧
    Prepare (sampleEnv [] (HistoryRun.lines [str "x"])) [] sampleImage
        = ⟨sampleExported, sampleImage, Exit.returned none⟩ := by
  decide

/-- C8, the code at a name that holds a `:`: of `Name:Tag` the path keeps what
stands before the first `:`, so the export directory of
`localhost:5000/busybox` with the tag `latest` is
`/tmp/hyperclair/localhost/blobs`, not the root followed by
`/localhost:5000/busybox/blobs`, and `localhost:5000/alpine` gets the same
directory. -/
theorem savePath_name_with_colon :
    savePath (sampleEnv [] (HistoryRun.lines []))
        (str "localhost:5000/busybox" ++ str ":" ++ str "latest")
      = str "/tmp/hyperclair/localhost/blobs" ∧
    savePath (sampleEnv [] (HistoryRun.lines []))
        (str "localhost:5000/busybox" ++ str ":" ++ str "latest")
      ≠ (sampleEnv [] (HistoryRun.lines [])).TmpLocal ++ str "/" ++ str "localhost:5000/busybox"
          ++ str "/blobs" ∧
    savePath (sampleEnv [] (HistoryRun.lines []))
        (str "localhost:5000/alpine" ++ str ":" ++ str "latest")
      = savePath (sampleEnv [] (HistoryRun.lines []))
        (str "localhost:5000/busybox" ++ str ":" ++ str "latest") := by
  decide

/-- What `save` computes as the export directory of `Name:Tag`: the
temporary-local root followed by `/`, the part of `Name` before its first `:`
(all of `Name` when it holds none) and `/blobs`. For a `Name` without `:` that
is the root followed by `/Name/blobs`, and the `Tag` never contributes. -/
theorem savePath_name_only (env : Env) (Name Tag : GoString) :
    savePath env (Name ++ str ":" ++ Tag)
      = env.TmpLocal ++ str "/" ++ Name.takeWhile (fun x => x != ':') ++ str "/blobs" ∧
    (':' ∉ Name →
      savePath env (Name ++ str ":" ++ Tag) = env.TmpLocal ++ str "/" ++ Name ++ str "/blobs") ∧
    (∀ Tag2 : GoString,
      savePath env (Name ++ str ":" ++ Tag2) = savePath env (Name ++ str ":" ++ Tag)) := by
  refine ⟨savePath_eq env Name Tag, ?_, ?_⟩
  · intro hn
    have hall : Name.takeWhile (fun x => x != ':') = Name := by
      rw [List.takeWhile_eq_self_iff]
      intro x hx
      have : x ≠ ':' := fun e => hn (e ▸ hx)
      simpa using this
    rw [savePath_eq, hall]
  · intro Tag2
    rw [savePath_eq, savePath_eq]

/-- Sample of the above: `busybox` with the tags `latest` and `1.0`. -/
theorem savePath_name_only_witness :
    ':' ∉ str "busybox" ∧
    savePath (sampleEnv [] (HistoryRun.lines [])) (str "busybox" ++ str ":" ++ str "latest")
      = (sampleEnv [] (HistoryRun.lines [])).TmpLocal ++ str "/" ++ str "busybox" ++ str "/blobs" ∧
    savePath (sampleEnv [] (HistoryRun.lines [])) (str "busybox" ++ str ":" ++ str "1.0")
      = savePath (sampleEnv [] (HistoryRun.lines [])) (str "busybox" ++ str ":" ++ str "latest") :=
  ⟨by decide,
    (savePath_name_only (sampleEnv [] (HistoryRun.lines [])) (str "busybox") (str "latest")).2.1
      (by decide),
    (savePath_name_only (sampleEnv [] (HistoryRun.lines [])) (str "busybox") (str "latest")).2.2
      (str "1.0")⟩

/-- C9, the code on a file system where the export directory exists and holds
a file of an earlier export: `os.Stat` returns `nil`, `os.IsExist(nil)` is
false, nothing is removed, and the old file is still there when the
extraction is about to start. -/
theorem saveDir_keeps_earlier_export :
    FS.lookup sampleStale samplePath = some Node.dir ∧
    os.Stat sampleStale samplePath = none ∧
    os.IsExist (os.Stat sampleStale samplePath) = false ∧
    saveDir (sampleEnv [sampleItem] (HistoryRun.lines [])) sampleStale (str "busybox:latest")
      = (sampleStale, samplePath, none) ∧
    FS.lookup (saveDir (sampleEnv [sampleItem] (HistoryRun.lines [])) sampleStale
        (str "busybox:latest")).1 (samplePath ++ str "/old/layer.tar")
      = some (Node.file (str "stale")) := by
  decide

/-- C10, the code at a manifest of two layers and a history of one line: the
check of line 35 passes and the loop indexes `historyLayerIDs[1]` out of range;
`Prepare` panics after it has appended the first record. The same happens at
index `0` when the history has no line. -/
theorem prepare_index_out_of_range :
    Prepare (sampleEnv [⟨[], [], [str "a/layer.tar", str "b/layer.tar"]⟩]
        (HistoryRun.lines [str "x"])) [] sampleImage
      = ⟨sampleExported,
          { sampleImage with FsLayers := sampleImage.FsLayers ++ [⟨str "a", str "x"⟩] },
          Exit.panicked (str "runtime error: index out of range")⟩ ∧
    Prepare (sampleEnv [⟨[], [], [str "a/layer.tar", str "b/layer.tar"]⟩]
        (HistoryRun.lines [])) [] sampleImage
      = ⟨sampleExported, sampleImage, Exit.panicked (str "runtime error: index out of range")⟩ := by
  decide

end Hyperclair
